import Mathlib

/-!
Verification of river.ts core: SSE frame codec (server/server.ts, client/client.ts)
and the websocket request/response correlator (websocket/websocket.ts).

Wire text is modelled as List Char.  JSON values are modelled by the
inductive Json below; JSON.stringify is embedded concretely
(jsonStringify), while JSON.parse - an external collaborator - is a
parameter of the decoder, constrained only where a theorem needs the
standard inverse property.
-/

namespace RiverTS

/-- JSON value model. Numbers are modelled as integers (payloads used by the
repository's tests are integral; float formatting is irrelevant to the claims). -/
inductive Json where
  | null : Json
  | bool (b : Bool) : Json
  | num (n : Int) : Json
  | str (s : String) : Json
  | arr (elems : List Json) : Json
  | obj (fields : List (String × Json)) : Json
deriving Repr

mutual

/-- Boolean equality on Json values. -/
def jsonBEq : Json → Json → Bool
  | .null, .null => true
  | .bool a, .bool b => a == b
  | .num a, .num b => a == b
  | .str a, .str b => a == b
  | .arr as, .arr bs => jsonListBEq as bs
  | .obj as, .obj bs => jsonFieldsBEq as bs
  | _, _ => false

/-- Boolean equality on lists of Json values. -/
def jsonListBEq : List Json → List Json → Bool
  | [], [] => true
  | a :: as, b :: bs => jsonBEq a b && jsonListBEq as bs
  | _, _ => false

/-- Boolean equality on Json object field lists. -/
def jsonFieldsBEq : List (String × Json) → List (String × Json) → Bool
  | [], [] => true
  | (k1, v1) :: as, (k2, v2) :: bs =>
      k1 == k2 && jsonBEq v1 v2 && jsonFieldsBEq as bs
  | _, _ => false

end

mutual

theorem jsonBEq_iff : ∀ a b, jsonBEq a b = true ↔ a = b
  | .null, b => by cases b <;> simp [jsonBEq]
  | .bool x, b => by cases b <;> simp [jsonBEq]
  | .num x, b => by cases b <;> simp [jsonBEq]
  | .str x, b => by cases b <;> simp [jsonBEq]
  | .arr as, b => by
      cases b <;> simp [jsonBEq]
      exact jsonListBEq_iff as _
  | .obj fs, b => by
      cases b <;> simp [jsonBEq]
      exact jsonFieldsBEq_iff fs _

theorem jsonListBEq_iff : ∀ as bs, jsonListBEq as bs = true ↔ as = bs
  | [], bs => by cases bs <;> simp [jsonListBEq]
  | a :: as, bs => by
      cases bs with
      | nil => simp [jsonListBEq]
      | cons b bs =>
          simp [jsonListBEq, Bool.and_eq_true, jsonBEq_iff a b,
            jsonListBEq_iff as bs]

theorem jsonFieldsBEq_iff : ∀ as bs, jsonFieldsBEq as bs = true ↔ as = bs
  | [], bs => by cases bs <;> simp [jsonFieldsBEq]
  | (k1, v1) :: as, bs => by
      cases bs with
      | nil => simp [jsonFieldsBEq]
      | cons b bs =>
          obtain ⟨k2, v2⟩ := b
          simp [jsonFieldsBEq, Bool.and_eq_true, jsonBEq_iff v1 v2,
            jsonFieldsBEq_iff as bs, and_assoc]

end

instance : DecidableEq Json := fun a b =>
  decidable_of_iff (jsonBEq a b = true) (jsonBEq_iff a b)

/-- Whitespace characters relevant to JS String.prototype.trim in this protocol. -/
def isWs (c : Char) : Bool := c = ' ' || c = '\t' || c = '\n' || c = '\r'

/-- JS String.prototype.trim: strip whitespace from both ends. -/
def jsTrim (l : List Char) : List Char :=
  ((l.dropWhile isWs).reverse.dropWhile isWs).reverse

/-- Hexadecimal digit character (helper for number serialization and unicode
escapes in the embedded JSON.stringify). -/
def digitChar (n : Nat) : Char :=
  match n with
  | 0 => '0' | 1 => '1' | 2 => '2' | 3 => '3' | 4 => '4'
  | 5 => '5' | 6 => '6' | 7 => '7' | 8 => '8' | 9 => '9'
  | 10 => 'a' | 11 => 'b' | 12 => 'c' | 13 => 'd' | 14 => 'e' | 15 => 'f'
  | _ => '0'

/-- Digits of a natural number, most significant first (helper for number
serialization in the embedded JSON.stringify). -/
def natChars (n : Nat) : List Char :=
  if h : n < 10 then [digitChar n]
  else natChars (n / 10) ++ [digitChar (n % 10)]
decreasing_by exact Nat.div_lt_self (by omega) (by omega)

/-- Serialization of an integer, as JSON.stringify renders integral numbers. -/
def intChars (i : Int) : List Char :=
  if i < 0 then '-' :: natChars i.natAbs else natChars i.toNat

/-- JSON string escaping for one character (JSON.stringify): quote, backslash
and the common control characters; other control characters via \u00XX. -/
def escChar (c : Char) : List Char :=
  if c = '"' then ['\\', '"']
  else if c = '\\' then ['\\', '\\']
  else if c = '\n' then ['\\', 'n']
  else if c = '\r' then ['\\', 'r']
  else if c = '\t' then ['\\', 't']
  else if c.toNat < 32 then
    ['\\', 'u', '0', '0', digitChar (c.toNat / 16), digitChar (c.toNat % 16)]
  else [c]

/-- Escaped body of a JSON string literal. -/
def escString (s : List Char) : List Char := s.flatMap escChar

mutual

/-- Embedded JSON.stringify (external collaborator, standard behavior):
renders a Json value without any added whitespace, exactly as JS
JSON.stringify does on the corresponding value. -/
def jsonStringify : Json → List Char
  | .null => "null".data
  | .bool true => "true".data
  | .bool false => "false".data
  | .num n => intChars n
  | .str s => '"' :: escString s.data ++ ['"']
  | .arr es => '[' :: stringifyElems es ++ [']']
  | .obj fs => '{' :: stringifyFields fs ++ ['}']

/-- Comma-separated serialization of array elements. -/
def stringifyElems : List Json → List Char
  | [] => []
  | [e] => jsonStringify e
  | e :: rest => jsonStringify e ++ ',' :: stringifyElems rest

/-- Comma-separated serialization of object fields. -/
def stringifyFields : List (String × Json) → List Char
  | [] => []
  | [(k, v)] => '"' :: escString k.data ++ '"' :: ':' :: jsonStringify v
  | (k, v) :: rest =>
      '"' :: escString k.data ++ '"' :: ':' :: jsonStringify v ++
        ',' :: stringifyFields rest

end

/-- Property read on a JSON value (JS member access; undefined is None). -/
def jsonMember (j : Json) (k : String) : Option Json :=
  match j with
  | .obj fs => (fs.find? (fun f => f.1 = k)).map (·.2)
  | _ => none

/-- Assignment into an association list: overwrite in place, else append
(JS object property assignment order semantics). -/
def setField (fs : List (String × Json)) (k : String) (v : Json) :
    List (String × Json) :=
  match fs with
  | [] => [(k, v)]
  | (k', v') :: rest =>
      if k' = k then (k, v) :: rest else (k', v') :: setField rest k v

/-- JS property assignment on a JSON value, in strict mode (ES modules):
objects accept it; arrays accept it but the expando is not part of the JSON
value; primitives throw TypeError (modelled as none). -/
def jsonSetMember (j : Json) (k : String) (v : Json) : Option Json :=
  match j with
  | .obj fs => some (.obj (setField fs k v))
  | .arr es => some (.arr es)
  | _ => none

/-- JS String.prototype.split on a single newline. -/
def splitOnNewline : List Char → List (List Char)
  | [] => [[]]
  | c :: rest =>
    if c = '\n' then [] :: splitOnNewline rest
    else
      match splitOnNewline rest with
      | [] => [[c]]
      | x :: xs => (c :: x) :: xs

/-- JS String.prototype.split on the double-newline frame delimiter
(leftmost, non-overlapping occurrences). -/
def splitOnBlank : List Char → List (List Char)
  | '\n' :: '\n' :: rest => [] :: splitOnBlank rest
  | c :: rest =>
    match splitOnBlank rest with
    | [] => [[c]]
    | x :: xs => (c :: x) :: xs
  | [] => [[]]

theorem splitOnNewline_ne_nil (l : List Char) : splitOnNewline l ≠ [] := by
  match l with
  | [] => simp [splitOnNewline]
  | c :: rest =>
    rw [splitOnNewline]
    split
    · simp
    · match h : splitOnNewline rest with
      | [] => simp
      | x :: xs => simp

theorem splitOnNewline_nosep (l : List Char) (h : '\n' ∉ l) :
    splitOnNewline l = [l] := by
  induction l with
  | nil => simp [splitOnNewline]
  | cons c rest ih =>
    have hc : c ≠ '\n' := fun hc => h (hc ▸ List.mem_cons_self c rest)
    have hr : '\n' ∉ rest := fun hm => h (List.mem_cons_of_mem c hm)
    rw [splitOnNewline, if_neg hc, ih hr]

theorem splitOnNewline_append (a b : List Char) (ha : '\n' ∉ a) :
    splitOnNewline (a ++ '\n' :: b) = a :: splitOnNewline b := by
  induction a with
  | nil => simp [splitOnNewline]
  | cons c rest ih =>
    have hc : c ≠ '\n' := fun hc => ha (hc ▸ List.mem_cons_self c rest)
    have hr : '\n' ∉ rest := fun hm => ha (List.mem_cons_of_mem c hm)
    rw [List.cons_append, splitOnNewline, if_neg hc, ih hr]

theorem splitOnBlank_sep (rest : List Char) :
    splitOnBlank ('\n' :: '\n' :: rest) = [] :: splitOnBlank rest := rfl

theorem splitOnBlank_cons (c : Char) (rest : List Char)
    (h : c ≠ '\n' ∨ rest.head? ≠ some '\n') :
    splitOnBlank (c :: rest) =
      match splitOnBlank rest with
      | [] => [[c]]
      | x :: xs => (c :: x) :: xs := by
  have h' : ∀ r, c = '\n' → rest = '\n' :: r → False := by
    intro r hc hr
    rcases h with h | h
    · exact h hc
    · exact h (by rw [hr]; rfl)
  rw [splitOnBlank.eq_def]
  split
  next rest' heq =>
    injection heq with h1 h2
    exact (h' rest' h1 h2).elim
  next x c' rest' hnc heq =>
    injection heq with h1 h2
    subst h1; subst h2; rfl
  next heq => exact (List.cons_ne_nil c rest heq).elim

theorem splitOnBlank_ne_nil (l : List Char) : splitOnBlank l ≠ [] := by
  cases l with
  | nil => simp [splitOnBlank]
  | cons c rest =>
    by_cases h : c = '\n' ∧ rest.head? = some '\n'
    · obtain ⟨hc, hh⟩ := h
      cases rest with
      | nil => simp at hh
      | cons r rs =>
        have hr : r = '\n' := by simpa using hh
        subst hc; subst hr
        rw [splitOnBlank_sep]; simp
    · rw [splitOnBlank_cons c rest (by tauto)]
      split <;> simp

/-- Splitting a newline-free chunk followed by the frame delimiter yields the
chunk and an empty trailing remainder. -/
theorem splitOnBlank_chunk (d : List Char) (hd : '\n' ∉ d) :
    splitOnBlank (d ++ ['\n', '\n']) = [d, []] := by
  induction d with
  | nil => rfl
  | cons c d' ih =>
    have hc : c ≠ '\n' := fun hc => hd (hc ▸ List.mem_cons_self c d')
    have hd' : '\n' ∉ d' := fun hm => hd (List.mem_cons_of_mem c hm)
    rw [List.cons_append, splitOnBlank_cons c _ (Or.inl hc), ih hd']

/-- Splitting a two-line frame (newline-free lines) followed by the frame
delimiter: one chunk containing the single interior newline, empty remainder. -/
theorem splitOnBlank_frame (e d : List Char) (he : '\n' ∉ e) (hd : '\n' ∉ d)
    (hdne : d ≠ []) :
    splitOnBlank (e ++ '\n' :: (d ++ ['\n', '\n'])) = [e ++ '\n' :: d, []] := by
  induction e with
  | nil =>
    cases d with
    | nil => exact absurd rfl hdne
    | cons c d' =>
      have hc : c ≠ '\n' := fun hc => hd (hc ▸ List.mem_cons_self c d')
      rw [List.nil_append,
        splitOnBlank_cons '\n' _ (Or.inr (by simp [hc]))]
      rw [splitOnBlank_chunk _ hd]
      simp
  | cons c e' ih =>
    have hc : c ≠ '\n' := fun hc => he (hc ▸ List.mem_cons_self c e')
    have he' : '\n' ∉ e' := fun hm => he (List.mem_cons_of_mem c hm)
    rw [List.cons_append, splitOnBlank_cons c _ (Or.inl hc), ih he']
    simp

/-- dropWhile is the identity when the head does not satisfy the predicate. -/
theorem dropWhile_eq_self_of_head (p : Char → Bool) (l : List Char)
    (h : ∀ c, l.head? = some c → p c = false) : l.dropWhile p = l := by
  cases l with
  | nil => rfl
  | cons a t =>
    rw [List.dropWhile_cons, h a rfl]
    simp

/-- jsTrim is the identity on a string whose first and last characters are not
whitespace. -/
theorem jsTrim_eq_self (l : List Char)
    (h1 : ∀ c, l.head? = some c → isWs c = false)
    (h2 : ∀ c, l.getLast? = some c → isWs c = false) : jsTrim l = l := by
  unfold jsTrim
  rw [dropWhile_eq_self_of_head _ _ h1]
  rw [dropWhile_eq_self_of_head _ _ (by
    intro c hc
    exact h2 c (by rwa [List.head?_reverse] at hc))]
  exact List.reverse_reverse l

/-- jsTrim drops a leading whitespace character. -/
theorem jsTrim_ws_cons (c : Char) (l : List Char) (h : isWs c = true) :
    jsTrim (c :: l) = jsTrim l := by
  unfold jsTrim
  rw [List.dropWhile_cons, h]
  simp

theorem mem_of_head?_eq (l : List Char) (c : Char) (h : l.head? = some c) :
    c ∈ l := by
  cases l with
  | nil => simp at h
  | cons a t =>
    have : a = c := by simpa using h
    exact this ▸ List.mem_cons_self a t

theorem mem_of_getLast?_eq (l : List Char) (c : Char) (h : l.getLast? = some c) :
    c ∈ l := by
  rw [← List.head?_reverse] at h
  exact List.mem_reverse.mp (mem_of_head?_eq l.reverse c h)

theorem digitChar_not_ws (n : Nat) : isWs (digitChar n) = false := by
  unfold digitChar
  split <;> decide

theorem digitChar_ne_newline (n : Nat) : digitChar n ≠ '\n' := by
  intro h
  have h2 := digitChar_not_ws n
  rw [h] at h2
  simp [isWs] at h2

theorem natChars_mem (n : Nat) : ∀ c ∈ natChars n, ∃ m, c = digitChar m := by
  induction n using natChars.induct with
  | case1 n h =>
    intro c hc
    rw [natChars, dif_pos h] at hc
    exact ⟨n, by simpa using hc⟩
  | case2 n h ih =>
    intro c hc
    rw [natChars, dif_neg h] at hc
    rcases List.mem_append.mp hc with h1 | h2
    · exact ih c h1
    · exact ⟨n % 10, by simpa using h2⟩

theorem natChars_ne_nil (n : Nat) : natChars n ≠ [] := by
  rw [natChars]
  split <;> simp

theorem natChars_head (n : Nat) :
    ∃ m, (natChars n).head? = some (digitChar m) := by
  induction n using natChars.induct with
  | case1 n h => exact ⟨n, by rw [natChars, dif_pos h]; rfl⟩
  | case2 n h ih =>
    obtain ⟨m, hm⟩ := ih
    refine ⟨m, ?_⟩
    rw [natChars, dif_neg h, List.head?_append, hm]
    rfl

theorem natChars_getLast (n : Nat) :
    ∃ m, (natChars n).getLast? = some (digitChar m) := by
  rw [natChars]
  split
  · exact ⟨n, rfl⟩
  · exact ⟨n % 10, List.getLast?_concat _⟩

theorem intChars_no_newline (i : Int) : '\n' ∉ intChars i := by
  unfold intChars
  split
  · intro hmem
    rcases List.mem_cons.mp hmem with h | h
    · exact absurd h (by decide)
    · obtain ⟨m, hm⟩ := natChars_mem _ _ h
      exact digitChar_ne_newline m hm.symm
  · intro hmem
    obtain ⟨m, hm⟩ := natChars_mem _ _ hmem
    exact digitChar_ne_newline m hm.symm

theorem intChars_ne_nil (i : Int) : intChars i ≠ [] := by
  unfold intChars
  split
  · simp
  · exact natChars_ne_nil _

theorem intChars_head_not_ws (i : Int) :
    ∀ c, (intChars i).head? = some c → isWs c = false := by
  unfold intChars
  split
  · intro c hc
    have : c = '-' := by simpa using hc.symm
    subst this; decide
  · intro c hc
    obtain ⟨m, hm⟩ := natChars_head i.toNat
    rw [hm] at hc
    obtain rfl : digitChar m = c := by simpa using hc
    exact digitChar_not_ws m

theorem intChars_getLast_not_ws (i : Int) :
    ∀ c, (intChars i).getLast? = some c → isWs c = false := by
  unfold intChars
  split
  · intro c hc
    obtain ⟨m, hm⟩ := natChars_getLast i.natAbs
    rw [List.getLast?_cons, hm] at hc
    obtain rfl : digitChar m = c := by simpa using hc
    exact digitChar_not_ws m
  · intro c hc
    obtain ⟨m, hm⟩ := natChars_getLast i.toNat
    rw [hm] at hc
    obtain rfl : digitChar m = c := by simpa using hc
    exact digitChar_not_ws m

theorem escChar_no_newline (c : Char) : '\n' ∉ escChar c := by
  unfold escChar
  split_ifs with h1 h2 h3 h4 h5 h6
  · decide
  · decide
  · decide
  · decide
  · decide
  · intro hmem
    simp only [List.mem_cons, List.not_mem_nil, or_false] at hmem
    rcases hmem with h | h | h | h | h | h
    all_goals first
      | (exact absurd h (by decide))
      | (exact digitChar_ne_newline _ h.symm)
  · intro hmem
    have : '\n' = c := by simpa using hmem
    exact h3 this.symm

theorem escString_no_newline (s : List Char) : '\n' ∉ escString s := by
  unfold escString
  intro hmem
  obtain ⟨c, _, hc⟩ := List.mem_flatMap.mp hmem
  exact escChar_no_newline c hc

mutual

theorem jsonStringify_no_newline : ∀ j, '\n' ∉ jsonStringify j
  | .null => by decide
  | .bool b => by cases b <;> decide
  | .num n => intChars_no_newline n
  | .str s => by
    rw [jsonStringify]
    intro hmem
    rcases List.mem_cons.mp hmem with h | h
    · exact absurd h (by decide)
    · rcases List.mem_append.mp h with h2 | h2
      · exact escString_no_newline s.data h2
      · exact absurd h2 (by decide)
  | .arr es => by
    rw [jsonStringify]
    intro hmem
    rcases List.mem_cons.mp hmem with h | h
    · exact absurd h (by decide)
    · rcases List.mem_append.mp h with h2 | h2
      · exact stringifyElems_no_newline es h2
      · exact absurd h2 (by decide)
  | .obj fs => by
    rw [jsonStringify]
    intro hmem
    rcases List.mem_cons.mp hmem with h | h
    · exact absurd h (by decide)
    · rcases List.mem_append.mp h with h2 | h2
      · exact stringifyFields_no_newline fs h2
      · exact absurd h2 (by decide)

theorem stringifyElems_no_newline : ∀ es, '\n' ∉ stringifyElems es
  | [] => by simp [stringifyElems]
  | [e] => by rw [stringifyElems]; exact jsonStringify_no_newline e
  | e :: e2 :: rest => by
    have h1 := jsonStringify_no_newline e
    have h2 := stringifyElems_no_newline (e2 :: rest)
    intro hmem
    simp only [stringifyElems, List.mem_append, List.mem_cons,
      List.not_mem_nil, or_false, false_or] at hmem
    casesm* _ ∨ _
    all_goals first
      | exact absurd (by assumption) (by decide)
      | exact h1 (by assumption)
      | exact h2 (by assumption)

theorem stringifyFields_no_newline : ∀ fs, '\n' ∉ stringifyFields fs
  | [] => by simp [stringifyFields]
  | [(k, v)] => by
    have h1 := escString_no_newline k.data
    have h2 := jsonStringify_no_newline v
    intro hmem
    simp only [stringifyFields, List.mem_append, List.mem_cons,
      List.not_mem_nil, or_false, false_or] at hmem
    casesm* _ ∨ _
    all_goals first
      | exact absurd (by assumption) (by decide)
      | exact h1 (by assumption)
      | exact h2 (by assumption)
  | (k, v) :: f2 :: rest => by
    have h1 := escString_no_newline k.data
    have h2 := jsonStringify_no_newline v
    have h3 := stringifyFields_no_newline (f2 :: rest)
    intro hmem
    simp only [stringifyFields, List.mem_append, List.mem_cons,
      List.not_mem_nil, or_false, false_or] at hmem
    casesm* _ ∨ _
    all_goals first
      | exact absurd (by assumption) (by decide)
      | exact h1 (by assumption)
      | exact h2 (by assumption)
      | exact h3 (by assumption)

end

theorem jsonStringify_ne_nil (j : Json) : jsonStringify j ≠ [] := by
  cases j with
  | null => decide
  | bool b => cases b <;> decide
  | num n => rw [jsonStringify]; exact intChars_ne_nil n
  | str s => rw [jsonStringify]; simp
  | arr es => rw [jsonStringify]; simp
  | obj fs => rw [jsonStringify]; simp

theorem jsonStringify_head_not_ws (j : Json) :
    ∀ c, (jsonStringify j).head? = some c → isWs c = false := by
  cases j with
  | null =>
    intro c hc
    rw [jsonStringify] at hc
    injection hc with h
    subst h; decide
  | bool b =>
    cases b <;> intro c hc <;> rw [jsonStringify] at hc <;>
      injection hc with h <;> subst h <;> decide
  | num n => rw [jsonStringify]; exact intChars_head_not_ws n
  | str s =>
    intro c hc
    rw [jsonStringify] at hc
    injection hc with h
    subst h; decide
  | arr es =>
    intro c hc
    rw [jsonStringify] at hc
    injection hc with h
    subst h; decide
  | obj fs =>
    intro c hc
    rw [jsonStringify] at hc
    injection hc with h
    subst h; decide

theorem jsonStringify_getLast_not_ws (j : Json) :
    ∀ c, (jsonStringify j).getLast? = some c → isWs c = false := by
  cases j with
  | null =>
    intro c hc
    rw [jsonStringify] at hc
    rw [show (['n', 'u', 'l', 'l'] : List Char).getLast? = some 'l' from rfl]
      at hc
    injection hc with h
    subst h; decide
  | bool b =>
    cases b <;> intro c hc <;> rw [jsonStringify] at hc
    · rw [show (['f', 'a', 'l', 's', 'e'] : List Char).getLast? = some 'e'
        from rfl] at hc
      injection hc with h
      subst h; decide
    · rw [show (['t', 'r', 'u', 'e'] : List Char).getLast? = some 'e'
        from rfl] at hc
      injection hc with h
      subst h; decide
  | num n => rw [jsonStringify]; exact intChars_getLast_not_ws n
  | str s =>
    intro c hc
    rw [jsonStringify, List.getLast?_concat] at hc
    injection hc with h
    subst h; decide
  | arr es =>
    intro c hc
    rw [jsonStringify, List.getLast?_concat] at hc
    injection hc with h
    subst h; decide
  | obj fs =>
    intro c hc
    rw [jsonStringify, List.getLast?_concat] at hc
    injection hc with h
    subst h; decide

/-!
SSE frame codec.

Encoder: RiverEmitter.emitSingleEvent (src/server/server.ts lines 184-194).
Decoder: the chunk-processing loop of RiverClient.fetch_event_stream
(src/client/client.ts lines 217-271).
-/

/-- emitSingleEvent: one push frame
(backtick-template: event, newline, data, blank line). -/
def emitSingleEvent (event_type : List Char) (payload : Json) : List Char :=
  "event: ".data ++ event_type ++ '\n' ::
    "data: ".data ++ jsonStringify payload ++ ['\n', '\n']

/-- The baseEvent object allocated per event block in fetch_event_stream. -/
def initBaseEvent : Json :=
  .obj [("type", .str ""), ("message", .str ""),
        ("data", .null), ("error", .null)]

/-- One line of an event block (client.ts lines 241-261): fixed-prefix
dispatch on event:, data:, id:, retry:.  A data: line replaces the
accumulated baseEvent by the parsed JSON and re-assigns its type property;
in strict mode that assignment - and the message fallback the catch then
attempts - throws a TypeError when the parsed value is a primitive, which
propagates out of the read loop (modelled by the error result).  id: lines
are ignored; retry: lines only mutate the client's reconnection delay, not
the frame, so they leave the baseEvent unchanged here. -/
def processLine (parse : List Char → Option Json) (base : Json)
    (line : List Char) : Except Unit Json :=
  if ("event:".data).isPrefixOf line then
    match jsonSetMember base "type" (.str (jsTrim (line.drop 6)).asString) with
    | some b => .ok b
    | none => .error ()
  else if ("data:".data).isPrefixOf line then
    let dataStr := jsTrim (line.drop 5)
    match parse dataStr with
    | some j =>
      match jsonSetMember j "type" ((jsonMember base "type").getD .null) with
      | some b => .ok b
      | none =>
        match jsonSetMember j "message" (.str dataStr.asString) with
        | some b => .ok b
        | none => .error ()
    | none =>
      match jsonSetMember base "message" (.str dataStr.asString) with
      | some b => .ok b
      | none => .error ()
  else if ("id:".data).isPrefixOf line then .ok base
  else if ("retry:".data).isPrefixOf line then .ok base
  else .ok base

/-- Sequential processing of an event block's lines; an exception aborts the
remaining lines. -/
def processLines (parse : List Char → Option Json) (base : Json) :
    List (List Char) → Except Unit Json
  | [] => .ok base
  | line :: rest =>
    match processLine parse base line with
    | .ok b => processLines parse b rest
    | .error e => .error e

/-- client.ts line 263-265: if (baseEvent.type === "error")
baseEvent.error = baseEvent.data (undefined modelled as null; the branch is
only reachable with an object baseEvent, so the assignment cannot throw). -/
def finalizeEvent (base : Json) : Json :=
  if jsonMember base "type" = some (.str "error") then
    match jsonSetMember base "error" ((jsonMember base "data").getD .null) with
    | some b => b
    | none => base
  else base

/-- Decoding of one (trimmed, nonempty) event block. -/
def decodeEvent (parse : List Char → Option Json) (ev : List Char) :
    Except Unit Json :=
  match processLines parse initBaseEvent (splitOnNewline (jsTrim ev)) with
  | .ok b => .ok (finalizeEvent b)
  | .error e => .error e

/-- The per-chunk event loop: blank (after trim) blocks are skipped; an
exception abandons the remaining blocks. -/
def decodeEvents (parse : List Char → Option Json) :
    List (List Char) → Except Unit (List Json)
  | [] => .ok []
  | ev :: rest =>
    if jsTrim ev = [] then decodeEvents parse rest
    else
      match decodeEvent parse ev with
      | .ok f =>
        match decodeEvents parse rest with
        | .ok fs => .ok (f :: fs)
        | .error e => .error e
      | .error e => .error e

/-- The consumer's chunk decoder: split the buffer on the double-newline
delimiter, keep the final element as the remainder (events.pop()), decode
every remaining non-blank event block. -/
def decodePushChunk (parse : List Char → Option Json) (buffer : List Char) :
    Except Unit (List Json × List Char) :=
  let parts := splitOnBlank buffer
  let remainder := parts.getLast?.getD []
  let events := parts.dropLast
  match decodeEvents parse events with
  | .ok frames => .ok (frames, remainder)
  | .error e => .error e

/-- The decoded frame with its type property removed (the payload view of a
frame, separating the event name from the payload the frame carries). -/
def eraseTypeField (j : Json) : Json :=
  match j with
  | .obj fs => .obj (fs.filter (fun f => f.1 != "type"))
  | _ => j

theorem isPrefixOf_self_append (l t : List Char) :
    l.isPrefixOf (l ++ t) = true := by
  induction l with
  | nil => simp [List.isPrefixOf]
  | cons a l ih => simpa [List.isPrefixOf] using ih

theorem isPrefixOf_cons_ne (a b : Char) (l t : List Char) (h : a ≠ b) :
    (a :: l).isPrefixOf (b :: t) = false := by
  simp [List.isPrefixOf, h]

theorem getLast?_append_right (l1 l2 : List Char) (h : l2 ≠ []) :
    (l1 ++ l2).getLast? = l2.getLast? := by
  rw [← List.head?_reverse, ← List.head?_reverse, List.reverse_append]
  cases h2 : l2.reverse with
  | nil => exact absurd (by simpa using congrArg List.reverse h2) h
  | cons a t => simp [h2]

theorem setField_append (fs : List (String × Json)) (k : String) (v : Json)
    (h : fs.find? (fun f => f.1 = k) = none) :
    setField fs k v = fs ++ [(k, v)] := by
  induction fs with
  | nil => rfl
  | cons f rest ih =>
    obtain ⟨k', v'⟩ := f
    rw [List.find?_cons] at h
    split at h
    · exact absurd h (by simp)
    · rename_i hne
      have hk : ¬ (k' = k) := by simpa using hne
      rw [setField, if_neg hk, ih h]
      simp

theorem filter_ne_key (fs : List (String × Json)) (k : String)
    (h : fs.find? (fun f => f.1 = k) = none) :
    fs.filter (fun f => f.1 != k) = fs := by
  rw [List.filter_eq_self]
  intro f hf
  have := List.find?_eq_none.mp h f hf
  simpa using this

theorem find?_setField (fs : List (String × Json)) (k : String) (v : Json) :
    (setField fs k v).find? (fun f => f.1 = k) = some (k, v) := by
  induction fs with
  | nil => simp [setField]
  | cons f rest ih =>
    obtain ⟨k', v'⟩ := f
    rw [setField]
    split
    · simp [List.find?_cons]
    · rename_i hne
      rw [List.find?_cons]
      split
      · rename_i hp
        exact absurd (by simpa using hp) hne
      · exact ih

/-- Processing the event: line of an encoded frame against the fresh
baseEvent sets its type to the trimmed event name. -/
theorem processLine_event_line (parse : List Char → Option Json)
    (n : List Char)
    (hn_hd : ∀ c, n.head? = some c → isWs c = false)
    (hn_last : ∀ c, n.getLast? = some c → isWs c = false) :
    processLine parse initBaseEvent ("event: ".data ++ n) =
      .ok (Json.obj [("type", .str n.asString), ("message", .str ""),
        ("data", .null), ("error", .null)]) := by
  have h1 : ("event:".data).isPrefixOf ("event: ".data ++ n) = true :=
    isPrefixOf_self_append "event:".data (' ' :: n)
  have h2 : ("event: ".data ++ n).drop 6 = ' ' :: n := rfl
  have h3 : jsTrim (' ' :: n) = n := by
    rw [jsTrim_ws_cons _ _ (by decide)]
    exact jsTrim_eq_self n hn_hd hn_last
  rw [processLine, if_pos h1, h2, h3]
  rfl

/-- Processing the data: line: the serialized payload is trimmed back to
itself, parsed, and its type property overwritten with the type captured
from the current baseEvent. -/
theorem processLine_data_line (parse : List Char → Option Json) (base : Json)
    (S : List Char) (fs : List (String × Json)) (tv : Json)
    (hS_hd : ∀ c, S.head? = some c → isWs c = false)
    (hS_last : ∀ c, S.getLast? = some c → isWs c = false)
    (hparse : parse S = some (Json.obj fs))
    (ht : jsonMember base "type" = some tv) :
    processLine parse base ("data: ".data ++ S) =
      .ok (Json.obj (setField fs "type" tv)) := by
  have h1 : ("event:".data).isPrefixOf ("data: ".data ++ S) = false :=
    isPrefixOf_cons_ne 'e' 'd' _ _ (by decide)
  have h2 : ("data:".data).isPrefixOf ("data: ".data ++ S) = true :=
    isPrefixOf_self_append "data:".data (' ' :: S)
  have h3 : ("data: ".data ++ S).drop 5 = ' ' :: S := rfl
  have h4 : jsTrim (' ' :: S) = S := by
    rw [jsTrim_ws_cons _ _ (by decide)]
    exact jsTrim_eq_self S hS_hd hS_last
  rw [processLine, if_neg (by rw [h1]; exact Bool.false_ne_true),
    if_pos h2, h3, h4]
  simp only [hparse, ht]
  rfl

/-- A concrete JSON.parse stand-in for object-payload round-trip instances:
inverts jsonStringify at the single payload used by the witness. -/
def parseHi : List Char → Option Json :=
  fun s =>
    if s = jsonStringify (Json.obj [("data", Json.str "hi")]) then
      some (Json.obj [("data", Json.str "hi")])
    else none

/-- A concrete JSON.parse stand-in at the primitive payload true
(JSON.parse "true" = true). -/
def parseTrue : List Char → Option Json :=
  fun s => if s = ['t', 'r', 'u', 'e'] then some (Json.bool true) else none

theorem find?_append_of_none (fs gs : List (String × Json)) (p : String × Json → Bool)
    (h : fs.find? p = none) : (fs ++ gs).find? p = gs.find? p := by
  induction fs with
  | nil => rfl
  | cons f rest ih =>
    rw [List.find?_cons] at h
    rw [List.cons_append, List.find?_cons]
    split at h
    · exact absurd h (by simp)
    · exact ih h


theorem frame_body_trim (n S : List Char) (hS_ne : S ≠ [])
    (hS_last : ∀ c, S.getLast? = some c → isWs c = false) :
    jsTrim (("event: ".data ++ n) ++ '\n' :: ("data: ".data ++ S)) =
      ("event: ".data ++ n) ++ '\n' :: ("data: ".data ++ S) := by
  refine jsTrim_eq_self _ ?_ ?_
  · intro c hc
    have h2 : ((("event: ".data ++ n) ++ '\n' :: ("data: ".data ++ S))).head? =
        some 'e' := rfl
    rw [h2] at hc
    injection hc with h3
    subst h3; decide
  · intro c hc
    rw [getLast?_append_right _ _ (by simp),
      show ('\n' :: ("data: ".data ++ S)) = ['\n'] ++ ("data: ".data ++ S)
        from rfl,
      getLast?_append_right _ _ (by simp),
      getLast?_append_right _ _ hS_ne] at hc
    exact hS_last c hc

theorem decodeEvent_frame (parse : List Char → Option Json) (n S : List Char)
    (fs : List (String × Json))
    (hn_nl : '\n' ∉ n)
    (hn_hd : ∀ c, n.head? = some c → isWs c = false)
    (hn_last : ∀ c, n.getLast? = some c → isWs c = false)
    (hn_err : n ≠ "error".data)
    (hS_nl : '\n' ∉ S) (hS_ne : S ≠ [])
    (hS_hd : ∀ c, S.head? = some c → isWs c = false)
    (hS_last : ∀ c, S.getLast? = some c → isWs c = false)
    (hparse : parse S = some (Json.obj fs)) :
    decodeEvent parse
        (("event: ".data ++ n) ++ '\n' :: ("data: ".data ++ S)) =
      .ok (Json.obj (setField fs "type" (.str n.asString))) := by
  have hEnl : '\n' ∉ "event: ".data ++ n := by
    intro hmem
    rcases List.mem_append.mp hmem with h | h
    · exact absurd h (by decide)
    · exact hn_nl h
  have hDnl : '\n' ∉ "data: ".data ++ S := by
    intro hmem
    rcases List.mem_append.mp hmem with h | h
    · exact absurd h (by decide)
    · exact hS_nl h
  have hDne : ("data: ".data ++ S) ≠ [] := by simp
  have htrim := frame_body_trim n S hS_ne hS_last
  have hlines : splitOnNewline (("event: ".data ++ n) ++ '\n' :: ("data: ".data ++ S)) =
      [("event: ".data ++ n), ("data: ".data ++ S)] := by
    rw [splitOnNewline_append _ _ hEnl, splitOnNewline_nosep _ hDnl]
  have hmem : jsonMember (Json.obj (setField fs "type" (Json.str n.asString))) "type" =
      some (Json.str n.asString) := by
    rw [jsonMember, find?_setField]
    rfl
  have hfin : finalizeEvent (Json.obj (setField fs "type" (Json.str n.asString))) =
      Json.obj (setField fs "type" (Json.str n.asString)) := by
    rw [finalizeEvent, if_neg ?hne]
    case hne =>
      rw [hmem]
      intro hcontra
      injection hcontra with h5
      injection h5 with h6
      apply hn_err
      have h7 := congrArg String.data h6
      simpa using h7
  rw [decodeEvent, htrim, hlines]
  simp only [processLines, processLine_event_line parse n hn_hd hn_last]
  rw [show (['d', 'a', 't', 'a', ':', ' '] : List Char) = "data: ".data from rfl,
    processLine_data_line parse
      (Json.obj [("type", Json.str n.asString), ("message", Json.str ""),
        ("data", Json.null), ("error", Json.null)])
      S fs (Json.str n.asString) hS_hd hS_last hparse (by rfl)]
  simp only [hfin]


theorem decodeEvents_single (parse : List Char → Option Json) (A : List Char)
    (f : Json) (htrim : ¬ jsTrim A = []) (hdec : decodeEvent parse A = .ok f) :
    decodeEvents parse [A] = .ok [f] := by
  simp only [decodeEvents, if_neg htrim, hdec]

theorem decodePushChunk_eq (parse : List Char → Option Json)
    (buffer A : List Char) (hsplit : splitOnBlank buffer = [A, []])
    (f : Json) (hdec : decodeEvents parse [A] = .ok [f]) :
    decodePushChunk parse buffer = .ok ([f], []) := by
  simp only [decodePushChunk, hsplit, List.dropLast, hdec, List.getLast?,
    List.getLastD, Option.getD]
  rfl

/-- Claim C1, amended.  Push-frame round-trip for object payloads: for every
event name n (no newline, no leading or trailing whitespace, not the
reserved name error) and every JSON object payload P without a type key,
decoding the complete encoded push frame produced by the emitter's
single-event encoder yields exactly one frame and an empty remainder; the
frame's event name (its type property) equals n and the frame with its type
property removed deep-equals P.  (The claim as frozen quantifies over every
JSON-serializable payload; it fails for primitive payloads, where the
decoder's strict-mode property assignment throws - see the counterexample -
and the decoded object's type property is overwritten with n.) -/
theorem c1_push_roundtrip_amended
    (parse : List Char → Option Json) (n : List Char)
    (fs : List (String × Json))
    (hn_nl : '\n' ∉ n)
    (hn_hd : ∀ c, n.head? = some c → isWs c = false)
    (hn_last : ∀ c, n.getLast? = some c → isWs c = false)
    (hn_err : n ≠ "error".data)
    (hty : fs.find? (fun f => f.1 = "type") = none)
    (hparse : parse (jsonStringify (Json.obj fs)) = some (Json.obj fs)) :
    decodePushChunk parse (emitSingleEvent n (Json.obj fs)) =
      .ok ([Json.obj (fs ++ [("type", Json.str n.asString)])], []) ∧
    jsonMember (Json.obj (fs ++ [("type", Json.str n.asString)])) "type" =
      some (.str n.asString) ∧
    eraseTypeField (Json.obj (fs ++ [("type", Json.str n.asString)])) =
      Json.obj fs := by
  have hSnl := jsonStringify_no_newline (Json.obj fs)
  have hSne := jsonStringify_ne_nil (Json.obj fs)
  have hS_hd := jsonStringify_head_not_ws (Json.obj fs)
  have hS_last := jsonStringify_getLast_not_ws (Json.obj fs)
  have hEnl : '\n' ∉ "event: ".data ++ n := by
    intro hmem
    rcases List.mem_append.mp hmem with h | h
    · exact absurd h (by decide)
    · exact hn_nl h
  have hDnl : '\n' ∉ "data: ".data ++ jsonStringify (Json.obj fs) := by
    intro hmem
    rcases List.mem_append.mp hmem with h | h
    · exact absurd h (by decide)
    · exact hSnl h
  have henc : emitSingleEvent n (Json.obj fs) =
      ("event: ".data ++ n) ++ '\n' ::
        (("data: ".data ++ jsonStringify (Json.obj fs)) ++ ['\n', '\n']) := by
    rw [emitSingleEvent]
    simp [List.append_assoc]
  have hsplit : splitOnBlank (emitSingleEvent n (Json.obj fs)) =
      [("event: ".data ++ n) ++ '\n' ::
        ("data: ".data ++ jsonStringify (Json.obj fs)), []] := by
    rw [henc]
    exact splitOnBlank_frame _ _ hEnl hDnl (by simp)
  have hframe := decodeEvent_frame parse n (jsonStringify (Json.obj fs)) fs
    hn_nl hn_hd hn_last hn_err hSnl hSne hS_hd hS_last hparse
  have htrimA : ¬ jsTrim (("event: ".data ++ n) ++ '\n' ::
      ("data: ".data ++ jsonStringify (Json.obj fs))) = [] := by
    intro hcontra
    rw [frame_body_trim n (jsonStringify (Json.obj fs)) hSne hS_last] at hcontra
    simp at hcontra
  have hdec := decodeEvents_single parse _ _ htrimA hframe
  have hchunk := decodePushChunk_eq parse _ _ hsplit _ hdec
  rw [setField_append fs "type" (Json.str n.asString) hty] at hchunk
  refine ⟨hchunk, ?_, ?_⟩
  · rw [jsonMember, find?_append_of_none fs _ _ hty]
    rfl
  · rw [eraseTypeField]
    rw [List.filter_append, filter_ne_key fs _ hty]
    simp

/-- Witness for C1 at the concrete input n = msg,
P = the object with data mapsto the string hi. -/
theorem c1_push_roundtrip_witness :
    decodePushChunk parseHi
        (emitSingleEvent "msg".data (Json.obj [("data", Json.str "hi")])) =
      .ok ([Json.obj [("data", Json.str "hi"), ("type", Json.str "msg")]],
        []) ∧
    jsonMember
        (Json.obj [("data", Json.str "hi"), ("type", Json.str "msg")])
        "type" = some (.str "msg") ∧
    eraseTypeField
        (Json.obj [("data", Json.str "hi"), ("type", Json.str "msg")]) =
      Json.obj [("data", Json.str "hi")] := by
  have h := c1_push_roundtrip_amended parseHi "msg".data
    [("data", Json.str "hi")]
    (by decide)
    (by
      intro c hc
      rw [show (("msg".data).head? : Option Char) = some 'm' from rfl] at hc
      injection hc with h2
      subst h2; decide)
    (by
      intro c hc
      rw [show (("msg".data).getLast? : Option Char) = some 'g' from rfl] at hc
      injection hc with h2
      subst h2; decide)
    (by decide)
    (by decide)
    (by rfl)
  exact h

/-!
Chunked stream emission: RiverEmitter.emitStreamEvent
(src/server/server.ts lines 127-179).  Items are pulled one at a time into a
buffer; when the buffer reaches chunk_size a frame carrying
a spread copy of the payload with data replaced by the buffer is written
(the same template as emitSingleEvent); writeChunk failure stops the pull
loop and skips the final flush; a nonempty buffer left at exhaustion is
flushed once more.
-/

/-- The chunked frame payload for one flush: a spread copy of the payload
envelope with data replaced by the buffered chunk. -/
def chunkPayload (fs : List (String × Json)) (chunk : List Json) : Json :=
  Json.obj (setField fs "data" (Json.arr chunk))

/-- The pull loop of emitStreamEvent.  The writer is modelled by a write
predicate (writeChunk returns false when the underlying write throws); the
result is the list of frames actually delivered. -/
def emitStreamLoop (chunk_size : Nat) (event_type : List Char)
    (fs : List (String × Json)) (write : List Char → Bool) :
    List Json → List Json → List (List Char)
  | [], chunk =>
    if chunk.length > 0 then
      if write (emitSingleEvent event_type (chunkPayload fs chunk)) then
        [emitSingleEvent event_type (chunkPayload fs chunk)]
      else []
    else []
  | item :: rest, chunk =>
    let chunk2 := chunk ++ [item]
    if chunk_size ≤ chunk2.length then
      if write (emitSingleEvent event_type (chunkPayload fs chunk2)) then
        emitSingleEvent event_type (chunkPayload fs chunk2) ::
          emitStreamLoop chunk_size event_type fs write rest []
      else []
    else emitStreamLoop chunk_size event_type fs write rest chunk2

/-- emitStreamEvent: run the pull loop with an empty buffer. -/
def emitStreamEvent (chunk_size : Nat) (event_type : List Char)
    (fs : List (String × Json)) (write : List Char → Bool)
    (items : List Json) : List (List Char) :=
  emitStreamLoop chunk_size event_type fs write items []

/-- The pure buffering structure of the pull loop: the successive flushed
chunks. -/
def chunkFlushes (chunk_size : Nat) : List Json → List Json → List (List Json)
  | [], chunk => if chunk.length > 0 then [chunk] else []
  | item :: rest, chunk =>
    let chunk2 := chunk ++ [item]
    if chunk_size ≤ chunk2.length then
      chunk2 :: chunkFlushes chunk_size rest []
    else chunkFlushes chunk_size rest chunk2

theorem emitStreamLoop_eq_map (N : Nat) (t : List Char)
    (fs : List (String × Json)) (write : List Char → Bool)
    (hw : ∀ s, write s = true) :
    ∀ (xs buf : List Json),
      emitStreamLoop N t fs write xs buf =
        (chunkFlushes N xs buf).map
          (fun c => emitSingleEvent t (chunkPayload fs c)) := by
  intro xs
  induction xs with
  | nil =>
    intro buf
    rw [emitStreamLoop, chunkFlushes]
    split
    · rw [hw]
      simp
    · simp
  | cons x rest ih =>
    intro buf
    rw [emitStreamLoop, chunkFlushes]
    split
    · rw [hw]
      simp [ih]
    · exact ih (buf ++ [x])

theorem chunkFlushes_join (N : Nat) :
    ∀ (xs buf : List Json), (chunkFlushes N xs buf).join = buf ++ xs := by
  intro xs
  induction xs with
  | nil =>
    intro buf
    rw [chunkFlushes]
    split <;> rename_i hlen
    · simp
    · have : buf = [] := by
        cases buf with
        | nil => rfl
        | cons a t => simp at hlen
      simp [this]
  | cons x rest ih =>
    intro buf
    rw [chunkFlushes]
    split
    · simp [ih]
    · rw [ih (buf ++ [x])]
      simp

theorem chunkFlushes_length (N : Nat) (hN : 1 ≤ N) :
    ∀ (xs buf : List Json), buf.length < N →
      (chunkFlushes N xs buf).length =
        (buf.length + xs.length + N - 1) / N := by
  intro xs
  induction xs with
  | nil =>
    intro buf hbuf
    rw [chunkFlushes]
    simp only [List.length_nil, Nat.add_zero]
    split <;> rename_i hlen
    · have h1 : 1 * N ≤ buf.length + N - 1 := by omega
      have h2 : buf.length + N - 1 < (1 + 1) * N := by omega
      simp only [List.length_singleton]
      exact (Nat.div_eq_of_lt_le h1 h2).symm
    · have h0 : buf.length = 0 := by omega
      rw [h0]
      have hlt : 0 + N - 1 < N := by omega
      rw [Nat.div_eq_of_lt hlt]
      rfl
  | cons x rest ih =>
    intro buf hbuf
    rw [chunkFlushes]
    simp only [List.length_cons]
    split <;> rename_i hlen
    · have hfull : buf.length + 1 = N := by
        rw [List.length_append, List.length_singleton] at hlen
        omega
      have ihz := ih [] (by simpa using hN)
      simp only [List.length_nil, Nat.zero_add] at ihz
      rw [List.length_cons, ihz]
      have harith : buf.length + (rest.length + 1) + N - 1 =
          (rest.length + N - 1) + N := by omega
      rw [harith, Nat.add_div_right _ (by omega : 0 < N)]
    · have hlt : (buf ++ [x]).length < N := by
        rw [List.length_append, List.length_singleton] at hlen ⊢
        omega
      rw [ih (buf ++ [x]) hlt, List.length_append, List.length_singleton]
      congr 1
      omega

/-- Claim C2.  Chunked emission: with chunk size N at least 1 and all writes
succeeding, the emitter delivers exactly the flushed chunks as frames - one
frame per buffered chunk, ceil(L/N) frames in total for L input items - and
the concatenation of the chunks carried in the frames' data fields, in
emission order, is the original item sequence. -/
theorem c2_chunked_emission (N : Nat) (hN : 1 ≤ N) (event_type : List Char)
    (fs : List (String × Json)) (write : List Char → Bool)
    (hw : ∀ s, write s = true) (items : List Json) :
    emitStreamEvent N event_type fs write items =
      (chunkFlushes N items []).map
        (fun c => emitSingleEvent event_type (chunkPayload fs c)) ∧
    (emitStreamEvent N event_type fs write items).length =
      (items.length + N - 1) / N ∧
    (chunkFlushes N items []).join = items ∧
    ∀ c ∈ chunkFlushes N items [],
      jsonMember (chunkPayload fs c) "data" = some (.arr c) := by
  have hmap := emitStreamLoop_eq_map N event_type fs write hw items []
  refine ⟨hmap, ?_, ?_, ?_⟩
  · rw [emitStreamEvent, hmap, List.length_map,
      chunkFlushes_length N hN items [] (by simpa using hN)]
    simp
  · rw [chunkFlushes_join]
    simp
  · intro c _
    rw [chunkPayload, jsonMember, find?_setField]
    rfl

/-- Witness for C2 at N = 2 over a three-item sequence. -/
theorem c2_chunked_emission_witness :
    (1 : Nat) ≤ 2 ∧
    (emitStreamEvent 2 "tick".data [("data", Json.null)] (fun _ => true)
        [Json.str "a", Json.str "b", Json.str "c"] =
      (chunkFlushes 2 [Json.str "a", Json.str "b", Json.str "c"] []).map
        (fun c => emitSingleEvent "tick".data
          (chunkPayload [("data", Json.null)] c)) ∧
    (emitStreamEvent 2 "tick".data [("data", Json.null)] (fun _ => true)
        [Json.str "a", Json.str "b", Json.str "c"]).length =
      ([Json.str "a", Json.str "b", Json.str "c"].length + 2 - 1) / 2 ∧
    (chunkFlushes 2 [Json.str "a", Json.str "b", Json.str "c"] []).join =
      [Json.str "a", Json.str "b", Json.str "c"] ∧
    ∀ c ∈ chunkFlushes 2 [Json.str "a", Json.str "b", Json.str "c"] [],
      jsonMember (chunkPayload [("data", Json.null)] c) "data" =
        some (.arr c)) :=
  ⟨by decide,
   c2_chunked_emission 2 (by decide) "tick".data [("data", Json.null)]
     (fun _ => true) (fun _ => rfl)
     [Json.str "a", Json.str "b", Json.str "c"]⟩

/-- Counterexample to claim C1 as frozen: for the JSON-serializable primitive
payload true, the decoder throws (strict-mode TypeError while assigning a
property on the parsed primitive, rethrown from the catch block) instead of
yielding one frame whose payload deep-equals the payload. -/
theorem c1_push_roundtrip_counterexample :
    decodePushChunk parseTrue
        (emitSingleEvent "msg".data (Json.bool true)) = .error () ∧
    ¬ ∃ f rem, decodePushChunk parseTrue
        (emitSingleEvent "msg".data (Json.bool true)) = .ok ([f], rem) := by
  refine ⟨rfl, ?_⟩
  rintro ⟨f, rem, h⟩
  rw [show decodePushChunk parseTrue
      (emitSingleEvent "msg".data (Json.bool true)) = .error () from rfl] at h
  exact Except.noConfusion h

/-!
Websocket correlator: RiverSocketAdapter (src/websocket/websocket.ts) with
the error classes of src/types/core.ts.  The resolve/reject closures of a
PendingRequest and the handler invocations are modelled as emitted actions;
setTimeout/clearTimeout as armTimer/clearTimer actions over timer handles.
-/

/-- One PendingRequest as the adapter tracks it: the timer handle, and the
event type and timeout value captured by the setTimeout closure. -/
structure PendingReq where
  reqType : String
  timeoutMs : Nat
  timerId : Nat
deriving Repr, DecidableEq

/-- The correlator-relevant error classes of src/types/core.ts.
RequestTimeoutError carries the event type and the timeout value;
WebSocketClosedError carries neither; sendError stands for an arbitrary
error thrown by the caller-supplied send function and re-used to reject. -/
inductive WsError where
  | requestTimeout (type : String) (timeout : Nat)
  | webSocketClosed
  | sendError
deriving Repr, DecidableEq

/-- The event-name field of a RequestTimeoutError (its type property). -/
def WsError.eventName : WsError → Option String
  | .requestTimeout t _ => some t
  | _ => none

/-- The timeout field of a RequestTimeoutError. -/
def WsError.timeoutVal : WsError → Option Nat
  | .requestTimeout _ ms => some ms
  | _ => none

/-- What a dispatch action delivers: the data field of a typed envelope
(none = undefined), or the raw message for the catch-all handler. -/
inductive MsgData where
  | jsonData (d : Option Json)
  | rawText (s : List Char)
  | rawBinary
  | rawBlob
deriving Repr, DecidableEq

/-- Externally observable effects of the adapter. -/
inductive WsAction where
  | armTimer (t : Nat) (ms : Nat)
  | clearTimer (t : Nat)
  | sendMsg (m : List Char)
  | resolve (id : String) (data : Option Json)
  | reject (id : String) (err : WsError)
  | dispatch (t : String) (data : MsgData)
deriving Repr, DecidableEq

/-- An inbound socket message: string, binary (ArrayBuffer, Uint8Array,
Buffer) or Blob. -/
inductive WsMessage where
  | binary
  | blob
  | text (s : List Char)
deriving Repr, DecidableEq

/-- Adapter state: the schema's event names (eventDefinitions keys), the
event types for which a handler set was allocated, the pending-request
registry (a JS Map: insertion-ordered association list, keys unique), and
the next fresh timer handle. -/
structure AdapterState where
  events : List String
  handlerSets : List String
  pending : List (String × PendingReq)
  nextTimer : Nat
deriving Repr, DecidableEq

/-- Map.get on the pending registry. -/
def pendingLookup (pending : List (String × PendingReq)) (i : String) :
    Option PendingReq :=
  (pending.find? (fun p => p.1 = i)).map (·.2)

/-- Map.delete on the pending registry. -/
def pendingErase (pending : List (String × PendingReq)) (i : String) :
    List (String × PendingReq) :=
  pending.eraseP (fun p => p.1 = i)

/-- Map.set on the pending registry: overwrite in place, else append. -/
def pendingSet (pending : List (String × PendingReq)) (i : String)
    (pr : PendingReq) : List (String × PendingReq) :=
  match pending with
  | [] => [(i, pr)]
  | (k, q) :: rest =>
      if k = i then (i, pr) :: rest else (k, q) :: pendingSet rest i pr

/-- getPendingRequestCount (websocket.ts lines 246-248). -/
def getPendingRequestCount (st : AdapterState) : Nat := st.pending.length

/-- dispatchRawMessage (websocket.ts lines 140-145): deliver to the message
handler set when one exists, else do nothing. -/
def dispatchRawMessage (st : AdapterState) (d : MsgData) : List WsAction :=
  if "message" ∈ st.handlerSets then [.dispatch "message" d] else []

/-- Ordinary dispatch of a parsed string message that matched no pending
request (websocket.ts lines 109-127): a truthy string type present in the
schema dispatches the data field; anything else falls to the raw handler
with the original string. -/
def ordinaryDispatch (st : AdapterState) (s : List Char) (j : Json) :
    List WsAction :=
  match jsonMember j "type" with
  | some (.str t) =>
      if t ≠ "" ∧ t ∈ st.events then
        [.dispatch t (.jsonData (jsonMember j "data"))]
      else dispatchRawMessage st (.rawText s)
  | _ => dispatchRawMessage st (.rawText s)

/-- handleMessage (websocket.ts lines 59-135).  Binary and Blob messages go
straight to the raw handler.  A string is JSON-parsed inside a try: parse
failure (including the destructuring throw on a parsed null) falls to the
raw handler.  A truthy string id matching a pending request resolves that
request - deleting it, clearing its timer and resolving with the data
field - and returns before ordinary dispatch.  Otherwise ordinary dispatch
runs.  The whole body sits in a catch-all try, so the function always
returns normally; handler exceptions are swallowed there. -/
def handleMessage (parse : List Char → Option Json) (st : AdapterState) :
    WsMessage → AdapterState × List WsAction
  | .binary => (st, dispatchRawMessage st .rawBinary)
  | .blob => (st, dispatchRawMessage st .rawBlob)
  | .text s =>
    match parse s with
    | none => (st, dispatchRawMessage st (.rawText s))
    | some j =>
      match jsonMember j "id" with
      | some (.str i) =>
        if i = "" then (st, ordinaryDispatch st s j)
        else
          match pendingLookup st.pending i with
          | some pr =>
              ({ st with pending := pendingErase st.pending i },
               [.clearTimer pr.timerId, .resolve i (jsonMember j "data")])
          | none => (st, ordinaryDispatch st s j)
      | _ => (st, ordinaryDispatch st s j)

/-- request (websocket.ts lines 197-229): arm a timer of timeoutMs, register
the PendingRequest, stringify the envelope with the correlation id and hand
it to sendFn; if sendFn throws synchronously, remove the registration,
cancel the timer and reject with the thrown error. -/
def request (st : AdapterState) (ty : String) (payload : Json) (id : String)
    (timeoutMs : Nat) (sendThrows : Bool) : AdapterState × List WsAction :=
  let timerId := st.nextTimer
  let st1 : AdapterState :=
    { st with pending := pendingSet st.pending id ⟨ty, timeoutMs, timerId⟩,
              nextTimer := timerId + 1 }
  let msg := jsonStringify
    (.obj [("type", .str ty), ("data", payload), ("id", .str id)])
  if sendThrows then
    ({ st1 with pending := pendingErase st1.pending id },
     [.armTimer timerId timeoutMs, .clearTimer timerId, .reject id .sendError])
  else (st1, [.armTimer timerId timeoutMs, .sendMsg msg])

/-- The setTimeout callback armed by request (websocket.ts lines 206-209):
delete the PendingRequest and reject with a RequestTimeoutError carrying the
captured event type and timeout value. -/
def fireTimeout (st : AdapterState) (id : String) (ty : String)
    (timeoutMs : Nat) : AdapterState × List WsAction :=
  ({ st with pending := pendingErase st.pending id },
   [.reject id (.requestTimeout ty timeoutMs)])

/-- clearPendingRequests (websocket.ts lines 235-241): clear every pending
timer, reject every pending request with WebSocketClosedError, empty the
registry. -/
def clearPendingRequests (st : AdapterState) : AdapterState × List WsAction :=
  ({ st with pending := [] },
   st.pending.flatMap
     (fun p => [.clearTimer p.2.timerId, .reject p.1 .webSocketClosed]))

/-- Sequential delivery of inbound string messages, concatenating the
emitted actions. -/
def deliverResponses (parse : List Char → Option Json) (st : AdapterState) :
    List (List Char) → AdapterState × List WsAction
  | [] => (st, [])
  | m :: rest =>
    let r := handleMessage parse st (.text m)
    let r2 := deliverResponses parse r.1 rest
    (r2.1, r.2 ++ r2.2)

end RiverTS


namespace RiverTS

theorem handleMessage_resolve (parse : List Char → Option Json)
    (st : AdapterState) (s : List Char) (j : Json) (i : String)
    (pr : PendingReq) (hp : parse s = some j)
    (hid : jsonMember j "id" = some (.str i)) (hne : i ≠ "")
    (hpend : pendingLookup st.pending i = some pr) :
    handleMessage parse st (.text s) =
      ({ st with pending := pendingErase st.pending i },
       [.clearTimer pr.timerId, .resolve i (jsonMember j "data")]) := by
  simp only [handleMessage, hp, hid, hpend, if_neg hne]

theorem handleMessage_fallthrough (parse : List Char → Option Json)
    (st : AdapterState) (s : List Char) (j : Json) (hp : parse s = some j)
    (hmiss : ∀ i, jsonMember j "id" = some (.str i) →
      i = "" ∨ pendingLookup st.pending i = none) :
    handleMessage parse st (.text s) = (st, ordinaryDispatch st s j) := by
  simp only [handleMessage, hp]
  cases hid : jsonMember j "id" with
  | none => simp
  | some v =>
    cases v with
    | str i =>
      rcases hmiss i hid with h | h
      · simp [h]
      · by_cases hi : i = ""
        · simp [hi]
        · simp [if_neg hi, h]
    | null => simp
    | bool b => simp
    | num x => simp
    | arr es => simp
    | obj fs => simp

theorem pendingLookup_erase_ne (pnd : List (String × PendingReq))
    (i i2 : String) (h : i ≠ i2) :
    pendingLookup (pendingErase pnd i2) i = pendingLookup pnd i := by
  induction pnd with
  | nil => rfl
  | cons p rest ih =>
    obtain ⟨k, q⟩ := p
    by_cases hk : k = i2
    · subst hk
      have hki : ¬ (k = i) := fun hc => h (hc ▸ rfl)
      simp [pendingErase, pendingLookup, List.eraseP_cons, List.find?_cons,
        hki]
    · by_cases hski : k = i
      · subst hski
        simp [pendingErase, pendingLookup, List.eraseP_cons, List.find?_cons,
          hk]
      · have := ih
        simp only [pendingErase, pendingLookup, List.eraseP_cons,
          List.find?_cons] at this ⊢
        simp [hk, hski, this]

theorem pendingErase_length (pnd : List (String × PendingReq)) (i : String)
    (pr : PendingReq) (h : pendingLookup pnd i = some pr) :
    (pendingErase pnd i).length + 1 = pnd.length := by
  induction pnd with
  | nil => simp [pendingLookup] at h
  | cons p rest ih =>
    obtain ⟨k, q⟩ := p
    by_cases hk : k = i
    · simp [pendingErase, List.eraseP_cons, hk]
    · have h2 : pendingLookup rest i = some pr := by
        simpa [pendingLookup, List.find?_cons, hk] using h
      have h3 := ih h2
      simp [pendingErase, List.eraseP_cons, hk] at h3 ⊢
      omega

end RiverTS

namespace RiverTS

theorem deliverResponses_resolve (parse : List Char → Option Json) :
    ∀ (msgs : List (List Char)) (rs : List (String × PendingReq × Json))
      (st : AdapterState),
      List.Forall₂ (fun m r =>
        parse m = some (.obj [("id", .str r.1), ("data", r.2.2)])) msgs rs →
      (∀ r ∈ rs, r.1 ≠ "") →
      (rs.map (fun r => r.1)).Nodup →
      (∀ r ∈ rs, pendingLookup st.pending r.1 = some r.2.1) →
      (deliverResponses parse st msgs).2 =
        rs.flatMap (fun r =>
          [.clearTimer r.2.1.timerId, .resolve r.1 (some r.2.2)]) ∧
      (deliverResponses parse st msgs).1.pending.length + rs.length =
        st.pending.length := by
  intro msgs rs st hfa
  induction hfa generalizing st with
  | nil =>
    intro _ _ _
    simp [deliverResponses]
  | cons hm htail ih =>
    rename_i m r ms rest
    intro hne hnodup hall
    have hid : jsonMember (Json.obj [("id", Json.str r.1),
        ("data", r.2.2)]) "id" = some (.str r.1) := rfl
    have hdata : jsonMember (Json.obj [("id", Json.str r.1),
        ("data", r.2.2)]) "data" = some r.2.2 := rfl
    have hr1 := hall r (List.mem_cons_self r rest)
    have hstep := handleMessage_resolve parse st m _ r.1 r.2.1 hm hid
      (hne r (List.mem_cons_self r rest)) hr1
    have hihyp : ∀ x ∈ rest,
        pendingLookup (pendingErase st.pending r.1) x.1 = some x.2.1 := by
      intro x hx
      have hxne : x.1 ≠ r.1 := by
        intro hc
        have hmem : r.1 ∈ rest.map (fun r => r.1) :=
          List.mem_map.mpr ⟨x, hx, hc⟩
        simp only [List.map_cons, List.nodup_cons] at hnodup
        exact hnodup.1 hmem
      rw [pendingLookup_erase_ne _ _ _ hxne]
      exact hall x (List.mem_cons_of_mem r hx)
    have hihn : ∀ x ∈ rest, x.1 ≠ "" :=
      fun x hx => hne x (List.mem_cons_of_mem r hx)
    have hihnd : (rest.map (fun r => r.1)).Nodup := by
      simp only [List.map_cons, List.nodup_cons] at hnodup
      exact hnodup.2
    have hrec := ih { st with pending := pendingErase st.pending r.1 } hihn hihnd hihyp
    constructor
    · simp only [deliverResponses, hstep, List.flatMap_cons]
      rw [hrec.1]
      simp [hdata]
    · have hlen := pendingErase_length st.pending r.1 r.2.1 hr1
      have hrec2 := hrec.2
      rw [show ({ st with pending := pendingErase st.pending r.1 } :
        AdapterState).pending = pendingErase st.pending r.1 from rfl] at hrec2
      simp only [deliverResponses, hstep, List.length_cons]
      omega

end RiverTS

namespace RiverTS

/-- Claim C3.  Response correlation: a parsed inbound string frame carrying a
truthy string id that matches a pending request resolves that request with
the frame's data field, clears its timer and removes it from the registry,
and no dispatch to ordinary event listeners occurs for that frame; a frame
whose id matches no pending request falls through to ordinary dispatch; and
for any set of pending requests with distinct ids, delivering their
responses in any order - reverse order included - resolves each with its own
matching payload and empties the registry of them. -/
theorem c3_response_correlation (parse : List Char → Option Json) :
    (∀ (st : AdapterState) (s : List Char) (j : Json) (i : String)
        (pr : PendingReq), parse s = some j →
        jsonMember j "id" = some (.str i) → i ≠ "" →
        pendingLookup st.pending i = some pr →
        handleMessage parse st (.text s) =
          ({ st with pending := pendingErase st.pending i },
           [.clearTimer pr.timerId, .resolve i (jsonMember j "data")]) ∧
        ∀ t d, WsAction.dispatch t d ∉ (handleMessage parse st (.text s)).2) ∧
    (∀ (st : AdapterState) (s : List Char) (j : Json), parse s = some j →
        (∀ i, jsonMember j "id" = some (.str i) →
          i = "" ∨ pendingLookup st.pending i = none) →
        handleMessage parse st (.text s) = (st, ordinaryDispatch st s j)) ∧
    (∀ (msgs : List (List Char)) (rs : List (String × PendingReq × Json))
        (st : AdapterState),
        List.Forall₂ (fun m r => parse m =
          some (.obj [("id", .str r.1), ("data", r.2.2)])) msgs rs →
        (∀ r ∈ rs, r.1 ≠ "") → (rs.map (fun r => r.1)).Nodup →
        (∀ r ∈ rs, pendingLookup st.pending r.1 = some r.2.1) →
        (deliverResponses parse st msgs).2 =
          rs.flatMap (fun r =>
            [.clearTimer r.2.1.timerId, .resolve r.1 (some r.2.2)]) ∧
        (deliverResponses parse st msgs).1.pending.length + rs.length =
          st.pending.length ∧
        ∀ r ∈ rs, WsAction.resolve r.1 (some r.2.2) ∈
          (deliverResponses parse st msgs).2) := by
  refine ⟨?_, ?_, ?_⟩
  · intro st s j i pr hp hid hne hpend
    have hstep := handleMessage_resolve parse st s j i pr hp hid hne hpend
    refine ⟨hstep, ?_⟩
    intro t d
    rw [hstep]
    simp
  · intro st s j hp hmiss
    exact handleMessage_fallthrough parse st s j hp hmiss
  · intro msgs rs st hfa hne hnodup hall
    have h := deliverResponses_resolve parse msgs rs st hfa hne hnodup hall
    refine ⟨h.1, h.2, ?_⟩
    intro r hr
    rw [h.1]
    refine List.mem_flatMap.mpr ⟨r, hr, ?_⟩
    simp

/-- parse for the C3 witness. -/
def parseC3 : List Char → Option Json := fun s =>
  if s = "mb".data then
    some (.obj [("id", .str "b"), ("data", .str "two")])
  else if s = "ma".data then
    some (.obj [("id", .str "a"), ("data", .str "one")])
  else none

/-- Witness for C3: two pending requests answered in reverse order. -/
theorem c3_response_correlation_witness :
    (deliverResponses parseC3
        ⟨[], [], [("a", ⟨"q", 30000, 0⟩), ("b", ⟨"q", 30000, 1⟩)], 2⟩
        ["mb".data, "ma".data]).2 =
      [.clearTimer 1, .resolve "b" (some (.str "two")),
       .clearTimer 0, .resolve "a" (some (.str "one"))] ∧
    (deliverResponses parseC3
        ⟨[], [], [("a", ⟨"q", 30000, 0⟩), ("b", ⟨"q", 30000, 1⟩)], 2⟩
        ["mb".data, "ma".data]).1.pending.length = 0 := by
  have h := (c3_response_correlation parseC3).2.2
    ["mb".data, "ma".data]
    [("b", (⟨"q", 30000, 1⟩, .str "two")), ("a", (⟨"q", 30000, 0⟩, .str "one"))]
    ⟨[], [], [("a", ⟨"q", 30000, 0⟩), ("b", ⟨"q", 30000, 1⟩)], 2⟩
    (List.Forall₂.cons (by rfl) (List.Forall₂.cons (by rfl) List.Forall₂.nil))
    (by decide) (by decide) (by decide)
  refine ⟨h.1.trans (by decide), ?_⟩
  simpa using h.2.1

end RiverTS

namespace RiverTS

/-- Claim C4.  Request timeout: request with a fresh registry arms one timer
of timeoutMs and sends the correlated envelope; when that timer fires with
no response having arrived, the promise is rejected with a
RequestTimeoutError whose event-name field equals the requested type and
whose timeout field equals timeoutMs, and the pending-request count is 0
immediately after. -/
theorem c4_request_timeout (st : AdapterState) (ty : String) (payload : Json)
    (id : String) (timeoutMs : Nat) (hempty : st.pending = []) :
    (request st ty payload id timeoutMs false).2 =
      [.armTimer st.nextTimer timeoutMs,
       .sendMsg (jsonStringify
         (.obj [("type", .str ty), ("data", payload), ("id", .str id)]))] ∧
    getPendingRequestCount (request st ty payload id timeoutMs false).1 = 1 ∧
    (fireTimeout (request st ty payload id timeoutMs false).1 id ty
        timeoutMs).2 = [.reject id (.requestTimeout ty timeoutMs)] ∧
    WsError.eventName (.requestTimeout ty timeoutMs) = some ty ∧
    WsError.timeoutVal (.requestTimeout ty timeoutMs) = some timeoutMs ∧
    getPendingRequestCount
      (fireTimeout (request st ty payload id timeoutMs false).1 id ty
        timeoutMs).1 = 0 := by
  refine ⟨by simp [request], ?_, by simp [fireTimeout], rfl, rfl, ?_⟩
  · simp [request, getPendingRequestCount, hempty, pendingSet]
  · simp [request, fireTimeout, getPendingRequestCount, hempty, pendingSet,
      pendingErase, List.eraseP_cons]

/-- A fresh adapter for the C4 witness. -/
def st4c : AdapterState := ⟨["spawn"], [], [], 0⟩

/-- Witness for C4 at a fresh adapter with a 100ms timeout. -/
theorem c4_request_timeout_witness :
    st4c.pending = [] ∧
    ((request st4c "spawn" Json.null "r1" 100 false).2 =
      [.armTimer 0 100,
       .sendMsg (jsonStringify (.obj [("type", .str "spawn"),
         ("data", Json.null), ("id", .str "r1")]))] ∧
    getPendingRequestCount (request st4c "spawn" Json.null "r1" 100
      false).1 = 1 ∧
    (fireTimeout (request st4c "spawn" Json.null "r1" 100 false).1 "r1"
        "spawn" 100).2 = [.reject "r1" (.requestTimeout "spawn" 100)] ∧
    WsError.eventName (.requestTimeout "spawn" 100) = some "spawn" ∧
    WsError.timeoutVal (.requestTimeout "spawn" 100) = some 100 ∧
    getPendingRequestCount (fireTimeout (request st4c "spawn" Json.null "r1"
      100 false).1 "r1" "spawn" 100).1 = 0) :=
  ⟨rfl, c4_request_timeout st4c "spawn" Json.null "r1" 100 rfl⟩

/-- Reject-with-closed recognizer. -/
def isClosedReject : WsAction → Bool
  | .reject _ .webSocketClosed => true
  | _ => false

/-- clearTimer recognizer. -/
def isClearTimer : WsAction → Bool
  | .clearTimer _ => true
  | _ => false

theorem clear_actions_counts (l : List (String × PendingReq)) :
    ((l.flatMap (fun p => [WsAction.clearTimer p.2.timerId,
        WsAction.reject p.1 .webSocketClosed])).countP isClosedReject) =
      l.length ∧
    ((l.flatMap (fun p => [WsAction.clearTimer p.2.timerId,
        WsAction.reject p.1 .webSocketClosed])).countP isClearTimer) =
      l.length := by
  induction l with
  | nil => simp
  | cons p rest ih =>
    simp only [List.flatMap_cons, List.countP_append, List.length_cons]
    constructor
    · rw [ih.1]
      simp [List.countP_cons, isClosedReject]
      omega
    · rw [ih.2]
      simp [List.countP_cons, isClearTimer]
      omega

/-- Claim C5.  clearPendingRequests rejects every one of the K outstanding
requests with a WebSocketClosedError, cancels each one's timer (K clears,
K closed-rejections), empties the registry, and a second call on the now
empty registry is a no-op: same state, no actions. -/
theorem c5_clear_pending (st : AdapterState) :
    (clearPendingRequests st).1.pending = [] ∧
    (clearPendingRequests st).2 =
      st.pending.flatMap (fun p =>
        [.clearTimer p.2.timerId, .reject p.1 .webSocketClosed]) ∧
    ((clearPendingRequests st).2.countP isClosedReject) =
      getPendingRequestCount st ∧
    ((clearPendingRequests st).2.countP isClearTimer) =
      getPendingRequestCount st ∧
    clearPendingRequests (clearPendingRequests st).1 =
      ((clearPendingRequests st).1, []) := by
  refine ⟨rfl, rfl, ?_, ?_, ?_⟩
  · exact (clear_actions_counts st.pending).1
  · exact (clear_actions_counts st.pending).2
  · rfl

end RiverTS

namespace RiverTS

/-- Claim C10.  handleMessage is total over every inbound message shape
(binary, Blob, non-JSON text, JSON without a usable id or type, and
well-formed envelopes): binary and Blob data and unparseable or untyped
strings are routed to the catch-all message handler when a handler set for
message exists and are silently ignored otherwise, and the only state
change handleMessage ever makes is removing a matched pending request.  The
source wraps the whole body in a catch-all try, so the embedded function is
total and never throws. -/
theorem c10_handle_message_total (parse : List Char → Option Json) :
    (∀ (st : AdapterState),
      handleMessage parse st .binary =
        (st, if "message" ∈ st.handlerSets then
          [.dispatch "message" .rawBinary] else []) ∧
      handleMessage parse st .blob =
        (st, if "message" ∈ st.handlerSets then
          [.dispatch "message" .rawBlob] else [])) ∧
    (∀ (st : AdapterState) (s : List Char), parse s = none →
      handleMessage parse st (.text s) =
        (st, if "message" ∈ st.handlerSets then
          [.dispatch "message" (.rawText s)] else [])) ∧
    (∀ (st : AdapterState) (s : List Char) (j : Json), parse s = some j →
      (∀ i, jsonMember j "id" = some (.str i) →
        i = "" ∨ pendingLookup st.pending i = none) →
      (∀ t, jsonMember j "type" = some (.str t) →
        t = "" ∨ t ∉ st.events) →
      handleMessage parse st (.text s) =
        (st, if "message" ∈ st.handlerSets then
          [.dispatch "message" (.rawText s)] else [])) ∧
    (∀ (st : AdapterState) (m : WsMessage),
      (handleMessage parse st m).1 = st ∨
      ∃ i pr, pendingLookup st.pending i = some pr ∧
        (handleMessage parse st m).1 =
          { st with pending := pendingErase st.pending i }) := by
  refine ⟨?_, ?_, ?_, ?_⟩
  · intro st
    constructor <;> simp [handleMessage, dispatchRawMessage]
  · intro st s hp
    simp [handleMessage, hp, dispatchRawMessage]
  · intro st s j hp hmiss hunty
    rw [handleMessage_fallthrough parse st s j hp hmiss]
    rw [ordinaryDispatch]
    cases ht : jsonMember j "type" with
    | none => simp [dispatchRawMessage]
    | some v =>
      cases v with
      | str t =>
        rcases hunty t ht with h | h
        · simp [h, dispatchRawMessage]
        · simp [h, dispatchRawMessage]
      | null => simp [dispatchRawMessage]
      | bool b => simp [dispatchRawMessage]
      | num x => simp [dispatchRawMessage]
      | arr es => simp [dispatchRawMessage]
      | obj fs => simp [dispatchRawMessage]
  · intro st m
    cases m with
    | binary => left; rfl
    | blob => left; rfl
    | text s =>
      cases hp : parse s with
      | none => left; simp [handleMessage, hp]
      | some j =>
        cases hid : jsonMember j "id" with
        | none => left; simp [handleMessage, hp, hid]
        | some v =>
          cases v with
          | str i =>
            by_cases hi : i = ""
            · left; simp [handleMessage, hp, hid, hi]
            · cases hl : pendingLookup st.pending i with
              | none => left; simp [handleMessage, hp, hid, hi, hl]
              | some pr =>
                right
                exact ⟨i, pr, hl, by simp [handleMessage, hp, hid, hi, hl]⟩
          | null => left; simp [handleMessage, hp, hid]
          | bool b => left; simp [handleMessage, hp, hid]
          | num x => left; simp [handleMessage, hp, hid]
          | arr es => left; simp [handleMessage, hp, hid]
          | obj fs => left; simp [handleMessage, hp, hid]

/-- A parse stand-in that always fails (non-JSON input). -/
def parseNone : List Char → Option Json := fun _ => none

/-!
Broadcast fan-out: RiverEmitter.broadcast (src/server/server.ts lines
499-545) over writeChunk (lines 108-121).  Emission to the snapshotted
connections runs independently under Promise.allSettled; rejected results
are reported keyed by the connection id at the same index of the snapshot.
-/

/-- Behavior of one connection's writer for one write. -/
inductive WriteBehavior where
  | ok
  | throws
deriving Repr, DecidableEq

/-- writeChunk (server.ts 108-121): try to write and return true; a sink
throw is caught, logged generically, and false is returned - the caller's
promise still fulfils. -/
def writeChunk (w : WriteBehavior) : Bool :=
  match w with
  | .ok => true
  | .throws => false

/-- One snapshotted connection: its client id and its writer's behavior for
this broadcast. -/
structure BClient where
  id : String
  write : WriteBehavior
deriving Repr, DecidableEq

/-- Outcome of emitEventInternal for one connection: whether the frame
reached the sink, and whether the emission promise rejected.  The only
rejection source is a throw before writeChunk runs - a serialization
failure on the shared payload (or a stream event without data), the same
for every connection; sink throws are swallowed inside writeChunk. -/
structure EmitOutcome where
  delivered : Bool
  rejected : Bool
deriving Repr, DecidableEq

/-- emitEventInternal for one connection during a broadcast. -/
def emitSingleTo (serThrows : Bool) (c : BClient) : EmitOutcome :=
  if serThrows then ⟨false, true⟩ else ⟨writeChunk c.write, false⟩

/-- broadcast: snapshot the entry list, start an emission per connection,
Promise.allSettled them, and report the client id of each rejected result
(console.error keyed by the snapshot entry at the same index).  Result:
(ids the frame was delivered to, ids reported as failures). -/
def broadcast (serThrows : Bool) (conns : List BClient) :
    List String × List String :=
  let results := conns.map (fun c => (c, emitSingleTo serThrows c))
  (results.filterMap (fun p => if p.2.delivered then some p.1.id else none),
   results.filterMap (fun p => if p.2.rejected then some p.1.id else none))

/-- Claim C6, amended.  Broadcast partial-failure isolation: the snapshot is
emitted to independently, so every connection whose sink accepts the write
receives the frame no matter what the other sinks do; but a sink throw is
caught inside writeChunk and the emission fulfils, so the per-id failure
reporting - which fires exactly for rejected emissions, as the
serialization-failure case shows - reports no failure for a sink throw.
(The claim as frozen expects exactly one failure keyed by the throwing
connection's id; the counterexample shows zero are reported.) -/
theorem c6_broadcast_isolation_amended (serThrows : Bool)
    (conns : List BClient) :
    (broadcast false conns).1 =
      conns.filterMap
        (fun c => if c.write = .ok then some c.id else none) ∧
    (broadcast false conns).2 = [] ∧
    (broadcast true conns).2 = conns.map (fun c => c.id) ∧
    (broadcast serThrows conns).2 =
      conns.filterMap
        (fun c => if (emitSingleTo serThrows c).rejected then some c.id
          else none) := by
  refine ⟨?_, ?_, ?_, ?_⟩
  · rw [broadcast]
    simp only [List.filterMap_map]
    congr 1
    funext c
    cases hw : c.write <;>
      simp [Function.comp, emitSingleTo, writeChunk, hw]
  · rw [broadcast]
    simp only [List.filterMap_map]
    have : ∀ c : BClient,
        (fun p : BClient × EmitOutcome =>
          if p.2.rejected then some p.1.id else none)
          ((fun c => (c, emitSingleTo false c)) c) = none := by
      intro c
      simp [emitSingleTo]
    simp [this, List.filterMap_eq_nil]
  · rw [broadcast]
    simp only [List.filterMap_map]
    induction conns with
    | nil => rfl
    | cons c rest ih =>
      simp only [List.filterMap_cons, List.map_cons]
      rw [ih]
      simp [emitSingleTo]
  · rw [broadcast]
    simp only [List.filterMap_map]
    congr 1

/-- Counterexample to claim C6 as frozen: broadcasting to three connections
where the second sink throws delivers to connections 1 and 3, but the
aggregate reports zero failures - not exactly one keyed by connection 2 -
because writeChunk swallows the sink throw and the emission fulfils. -/
theorem c6_broadcast_counterexample :
    broadcast false
        [⟨"c1", .ok⟩, ⟨"c2", .throws⟩, ⟨"c3", .ok⟩] =
      (["c1", "c3"], []) := by
  decide

/-!
Per-connection teardown: the cleanup closure in RiverEmitter.stream
(src/server/server.ts lines 288-336), guarded by registry membership and
re-entered from five paths, and disconnectClient (lines 552-565).
-/

/-- Registry state observed for one connection: the set of registered client
ids, and how many times the caller's ondisconnect hook has run for the
observed client. -/
structure EmState where
  clients : List String
  hookRuns : Nat
deriving Repr, DecidableEq

/-- The user's ondisconnect hook, which may throw. -/
def runHook (hookThrows : Bool) : Except Unit Unit :=
  if hookThrows then .error () else .ok ()

/-- The idempotent cleanup closure (server.ts 290-336): a client no longer
in the registry returns at once; otherwise the client is removed from the
registry first, then the hook runs inside a try whose catch only logs, then
the writer abort and controller close follow (no further registry effect). -/
def cleanup (hookThrows : Bool) (cid : String) (st : EmState) : EmState :=
  if cid ∈ st.clients then
    let st1 : EmState :=
      { clients := st.clients.erase cid, hookRuns := st.hookRuns + 1 }
    match runHook hookThrows with
    | .ok _ => st1
    | .error _ => st1
  else st

/-- The five paths that trigger teardown for a connection.  consumerCancel
(the stream's cancel callback) and disconnect (disconnectClient) first look
the client up in the registry and call its cleanup only when present; the
other three call cleanup directly. -/
inductive Trigger where
  | sinkAbort
  | pipeAbort
  | consumerCancel
  | signalAbort
  | disconnect
deriving Repr, DecidableEq

/-- Firing one teardown trigger. -/
def fireTrigger (hookThrows : Bool) (cid : String) (st : EmState) :
    Trigger → EmState
  | .consumerCancel =>
      if cid ∈ st.clients then cleanup hookThrows cid st else st
  | .disconnect =>
      if cid ∈ st.clients then cleanup hookThrows cid st else st
  | _ => cleanup hookThrows cid st

theorem cleanup_of_mem (hookThrows : Bool) (cid : String) (st : EmState)
    (hmem : cid ∈ st.clients) :
    cleanup hookThrows cid st =
      ⟨st.clients.erase cid, st.hookRuns + 1⟩ := by
  rw [cleanup, if_pos hmem]
  cases hookThrows <;> rfl

theorem fireTrigger_noop (hookThrows : Bool) (cid : String) (st : EmState)
    (hout : cid ∉ st.clients) (t : Trigger) :
    fireTrigger hookThrows cid st t = st := by
  cases t <;> simp [fireTrigger, cleanup, hout]

theorem foldl_fireTrigger_noop (hookThrows : Bool) (cid : String)
    (st : EmState) (hout : cid ∉ st.clients) (trigs : List Trigger) :
    trigs.foldl (fireTrigger hookThrows cid) st = st := by
  induction trigs with
  | nil => rfl
  | cons t rest ih =>
    rw [List.foldl_cons, fireTrigger_noop hookThrows cid st hout t, ih]

/-- Claim C7.  Teardown idempotence: from a state where the connection is
registered and its hook has not run, any nonempty sequence of teardown
triggers - sink abort, internal pipe abort, consumer cancel, external
signal abort, explicit disconnectClient, in any combination - leaves the
connection deregistered with the ondisconnect hook invoked exactly once,
whether or not the hook throws (its exception is caught inside cleanup). -/
theorem c7_teardown_once (hookThrows : Bool) (cid : String) (st : EmState)
    (trigs : List Trigger) (hnd : st.clients.Nodup)
    (hmem : cid ∈ st.clients) (h0 : st.hookRuns = 0) (hne : trigs ≠ []) :
    cid ∉ (trigs.foldl (fireTrigger hookThrows cid) st).clients ∧
    (trigs.foldl (fireTrigger hookThrows cid) st).hookRuns = 1 := by
  cases trigs with
  | nil => exact absurd rfl hne
  | cons t rest =>
    have hstep : fireTrigger hookThrows cid st t =
        ⟨st.clients.erase cid, st.hookRuns + 1⟩ := by
      cases t <;>
        simp [fireTrigger, cleanup_of_mem hookThrows cid st hmem, hmem]
    have hout : cid ∉ st.clients.erase cid := hnd.not_mem_erase
    rw [List.foldl_cons, hstep,
      foldl_fireTrigger_noop hookThrows cid _ hout rest]
    exact ⟨hout, by rw [h0]⟩

/-- Observed client id for the C7 witness. -/
def cid7w : String := "c1"

/-- Initial registry for the C7 witness. -/
def st7w : EmState := ⟨["c1", "c2"], 0⟩

/-- Two racing triggers for the C7 witness: a sink abort followed by an
explicit disconnect. -/
def trigs7w : List Trigger := [.sinkAbort, .disconnect]

/-- Witness for C7: a throwing hook and two racing triggers. -/
theorem c7_teardown_once_witness :
    cid7w ∉ (trigs7w.foldl (fireTrigger true cid7w) st7w).clients ∧
    (trigs7w.foldl (fireTrigger true cid7w) st7w).hookRuns = 1 :=
  c7_teardown_once true cid7w st7w trigs7w (by decide) (by decide) rfl
    (by decide)

/-!
Emit after teardown: the bound emit function created in RiverEmitter.stream
(src/server/server.ts lines 342-357).
-/

/-- Result of one call to a connection's bound emit: whether
emitEventInternal ran against the writer, and whether the returned promise
rejected. -/
structure EmitCallResult where
  wrote : Bool
  rejected : Bool
deriving Repr, DecidableEq

/-- The bound emit: if the client is still registered, emit to its writer;
otherwise log a warning and resolve without doing anything (the throw in
the else branch is commented out in the source). -/
def boundEmit (st : EmState) (cid : String) : EmitCallResult :=
  if cid ∈ st.clients then ⟨true, false⟩ else ⟨false, false⟩

/-- Claim C8, amended.  Emit after teardown is a warn-and-resolve no-op:
once the connection's id has left the registry, the bound emit function
writes nothing and resolves normally - it does not reject.  (The claim as
frozen says it rejects; the counterexample shows the fulfilled no-op.) -/
theorem c8_emit_after_teardown_amended (st : EmState) (cid : String)
    (hout : cid ∉ st.clients) :
    boundEmit st cid = ⟨false, false⟩ := by
  rw [boundEmit, if_neg hout]

/-- Witness for C8 after tearing down the only client. -/
theorem c8_emit_after_teardown_witness :
    boundEmit (cleanup false "c1" ⟨["c1"], 0⟩) "c1" = ⟨false, false⟩ :=
  c8_emit_after_teardown_amended (cleanup false "c1" ⟨["c1"], 0⟩) "c1"
    (by decide)

/-- Counterexample to claim C8 as frozen: after teardown of the only
connection, the bound emit neither writes nor rejects - it resolves as a
silent (warn-only) no-op, where the claim requires a rejection. -/
theorem c8_emit_after_teardown_counterexample :
    (boundEmit (cleanup false "c1" ⟨["c1"], 0⟩) "c1").rejected = false ∧
    (boundEmit (cleanup false "c1" ⟨["c1"], 0⟩) "c1").wrote = false := by
  decide

/-!
Consumer close and reconnection: RiverClient.stream error handling
(src/client/client.ts lines 148-201), close (lines 273-284) and reconnect
(lines 286-291).
-/

/-- Consumer state: the sticky closing flag and the reconnect counter
(incremented on every entry to reconnect). -/
structure CliState where
  closing : Bool
  reconnectAttempts : Nat
deriving Repr, DecidableEq

/-- reconnect (client.ts 286-291): count the attempt, wait the delay,
re-invoke stream.  No closing check. -/
def reconnect (st : CliState) : CliState :=
  { st with reconnectAttempts := st.reconnectAttempts + 1 }

/-- close (client.ts 273-284): set the sticky closing flag, close the
EventSource, abort the fetch controller, dispatch the close event. -/
def closeConsumer (st : CliState) : CliState := { st with closing := true }

/-- The catch around fetch_event_stream in stream() (client.ts 158-167):
when the consumer is closing, return silently; otherwise report and
reconnect. -/
def onFetchStreamError (st : CliState) : CliState :=
  if st.closing then st else reconnect st

/-- The EventSource onerror handler (client.ts 195-199): close, then
reconnect - with no check of the closing flag. -/
def onEventSourceError (st : CliState) : CliState :=
  reconnect (closeConsumer st)

/-- Claim C9, amended.  Sticky close suppresses reconnection only on the
fetch path: with the closing flag set, a fetch-stream error is swallowed
without a reconnect attempt; but the EventSource error handler calls
close() and then reconnect() unconditionally, so on that path a reconnect
attempt is made regardless of the flag - reconnect() is invoked right
after an explicit local close.  (The claim as frozen says every
reconnect-scheduling path checks the flag first; the counterexample shows
the EventSource path does not.) -/
theorem c9_sticky_close_amended (st : CliState) (hclosing : st.closing = true) :
    onFetchStreamError st = st ∧
    (onEventSourceError st).reconnectAttempts = st.reconnectAttempts + 1 ∧
    (onEventSourceError st).closing = true := by
  exact ⟨by rw [onFetchStreamError, if_pos hclosing], rfl, rfl⟩

/-- Witness for C9 on an already-closed consumer. -/
theorem c9_sticky_close_witness :
    onFetchStreamError ⟨true, 0⟩ = ⟨true, 0⟩ ∧
    (onEventSourceError ⟨true, 0⟩).reconnectAttempts = 0 + 1 ∧
    (onEventSourceError ⟨true, 0⟩).closing = true :=
  c9_sticky_close_amended ⟨true, 0⟩ rfl

/-- Counterexample to claim C9 as frozen: after an explicit local close
(closing flag set), an EventSource transport error still invokes
reconnect - the handler closes and reconnects without consulting the
sticky flag. -/
theorem c9_sticky_close_counterexample :
    (closeConsumer ⟨false, 0⟩).closing = true ∧
    (onEventSourceError (closeConsumer ⟨false, 0⟩)).reconnectAttempts = 1 := by
  decide

/-- Witness for C10: non-JSON text with and without a message handler set. -/
theorem c10_handle_message_total_witness :
    (parseNone "hello".data = none) ∧
    handleMessage parseNone ⟨[], ["message"], [], 0⟩ (.text "hello".data) =
      (⟨[], ["message"], [], 0⟩,
       [.dispatch "message" (.rawText "hello".data)]) ∧
    handleMessage parseNone ⟨[], [], [], 0⟩ .binary =
      (⟨[], [], [], 0⟩, []) := by
  refine ⟨rfl, ?_, ?_⟩
  · have h := (c10_handle_message_total parseNone).2.1
      ⟨[], ["message"], [], 0⟩ "hello".data rfl
    exact h.trans (by decide)
  · have h := ((c10_handle_message_total parseNone).1
      ⟨[], [], [], 0⟩).1
    exact h.trans (by decide)

end RiverTS
